import Mathlib

/-!
Verification development for the `pb_process_tools` batch-processing
framework.  The definitions below are shallow embeddings of the Python
source:

* the job-store model and worker claim/complete/error life cycle from
  `pbprocesstools/pbpt_q_process.py`;
* the command-list partitioning algorithms from `bin/splitcmdslist.py`;
* the file-lock utilities (timestamp read/write, stale-lock cleanup)
  from `pbprocesstools/pbpt_utils.py`.

Machinery that is pure I/O plumbing (SQLAlchemy sessions, the on-disk
lock polling loop, log output) is abstracted: stateful operations become
explicit functions on a store state (a list of job records), the payload
of a job (a Python dict) is modelled by its key set, and timestamps are
explicit parameters.  One calling-convention fact is modelled explicitly
because it decides `std_run`'s control flow: the `get_file_lock` call
opening each worker-loop iteration passes a `timeout` keyword that
`PBPTUtils.get_file_lock`'s signature does not accept, which in Python
raises `TypeError` at the call site (see `kwargsBindOk`, `stdRunStep`).
-/

namespace PBPT

/-- Model of the opaque `JobParams` dict payload: the set of keys present
(the store never inspects values, only the worker's required-field check
looks at key membership). -/
abbrev Params := List String

/-- Model of the opaque `ErrorInfo` payload (error message / traceback). -/
abbrev ErrInfo := String

/-- One row of the `PBPTProcessJob` table
(`pbpt_q_process.py`, class `PBPTProcessJob`). -/
structure Job where
  PID : Nat
  JobParams : Params
  Start : Option Nat
  End : Option Nat
  Started : Bool
  Completed : Bool
  Checked : Bool
  Error : Bool
  ErrorInfo : Option ErrInfo
deriving DecidableEq, Repr

/-- A job is eligible to be claimed when `Completed == False` and
`Started == False` (the filter in `std_run`'s query). -/
def eligible (j : Job) : Bool := !j.Started && !j.Completed

/-- The row returned by
`ses.query(PBPTProcessJob).filter(Completed == False, Started == False)
.order_by(PBPTProcessJob.PID.asc()).first()`:
the eligible row with the smallest `PID` (ties cannot arise: `PID` is the
primary key). -/
def selectJob : List Job → Option Job
  | [] => none
  | j :: rest =>
    if eligible j then
      match selectJob rest with
      | none => some j
      | some b => if b.PID < j.PID then some b else some j
    else selectJob rest

/-- The row update performed on the claimed row in `std_run`:
`job_info.Started = True; job_info.Start = datetime.datetime.now()`. -/
def claimUpd (pid now : Nat) (r : Job) : Job :=
  if r.PID = pid then { r with Started := true, Start := some now } else r

/-- The claim step of `PBPTQProcessTool.std_run` (no debug job id):
query the smallest-PID eligible row; if found, mark it started (commit)
and hand back its `PID` and `JobParams`; otherwise leave the store
unchanged and report no job. -/
def claimNext (now : Nat) (db : List Job) : Option (Nat × Params) × List Job :=
  match selectJob db with
  | none => (none, db)
  | some j => (some (j.PID, j.JobParams), db.map (claimUpd j.PID now))

/-- `PBPTQProcessTool.completed_processing`: for the row with the worker's
`job_pid` set `Completed = True, Error = False, End = now` (no-op when the
PID is absent, mirroring `one_or_none`). -/
def completedProcessing (pid tEnd : Nat) (db : List Job) : List Job :=
  db.map fun j =>
    if j.PID = pid then { j with Completed := true, Error := false, End := some tEnd }
    else j

/-- `PBPTQProcessTool.record_process_error`: for the row with the worker's
`job_pid` set `Completed = False, Error = True, ErrorInfo = err, End = None`. -/
def recordProcessError (pid : Nat) (err : ErrInfo) (db : List Job) : List Job :=
  db.map fun j =>
    if j.PID = pid then
      { j with Completed := false, Error := true, ErrorInfo := some err, End := none }
    else j

/-- `PBPTGenQProcessToolCmds.check_job_outputs`: over every row with
`Checked == False` — if the row is `Completed` and the user-supplied
`outputs_present` hook reports all outputs there, set `Checked = True`;
if outputs are missing set `Error = True, ErrorInfo = errs`; for
not-completed rows, reset `Started = False` when it was set.
`outsPresent` models the external `outputs_present(params)` hook
returning `(files_present, errs_dict)`. -/
def checkJobOutputs (outsPresent : Params → Bool × ErrInfo) (db : List Job) : List Job :=
  db.map fun j =>
    if j.Checked then j
    else if j.Completed then
      if (outsPresent j.JobParams).1 then { j with Checked := true }
      else { j with Error := true, ErrorInfo := some (outsPresent j.JobParams).2 }
    else if j.Started then { j with Started := false }
    else j

/-- The per-row reset performed by `remove_job_outputs`:
`Started = Error = Completed = Checked = False`. -/
def resetJob (j : Job) : Job :=
  { j with Started := false, Error := false, Completed := false, Checked := false }

/-- `PBPTGenQProcessToolCmds.remove_job_outputs` with `all_jobs=True`:
every row is reset (the external `remove_outputs` hook only touches
output artifacts, not store state). -/
def removeJobOutputsAll (db : List Job) : List Job := db.map resetJob

/-- `PBPTGenQProcessToolCmds.remove_job_outputs` with `error_jobs=True`:
rows matching `Started == True and Completed == False` are reset. -/
def removeJobOutputsErrs (db : List Job) : List Job :=
  db.map fun j => if j.Started && !j.Completed then resetJob j else j

/-- `PBPTGenQProcessToolCmds.pop_params_db`: the previous store content
(`oldDb`) is discarded (the SQLite file is deleted and the table dropped
and recreated), then one `PBPTProcessJob(PID=i, JobParams=param)` is
inserted per entry, `i` counting from 0 in input order; the boolean
columns take their declared defaults (`False`) and `Start`/`End`/
`ErrorInfo` are `NULL`. -/
def popParamsDb (oldDb : List Job) (ps : List Params) : List Job :=
  ps.enum.map fun ip =>
    { PID := ip.1, JobParams := ip.2, Start := none, End := none,
      Started := false, Completed := false, Checked := false, Error := false,
      ErrorInfo := none }

/-- Outcome of one pass of the `while True` loop in `std_run`. -/
inductive StepResult where
  /-- no eligible job was found: the loop `break`s and the worker exits. -/
  | terminated : StepResult
  /-- a job was claimed and either completed or its error recorded; the
  loop continues with this store state. -/
  | looped : List Job → StepResult
  /-- an uncaught exception escaped the loop (and `std_run`), leaving
  this store state behind. -/
  | raised : List Job → StepResult
deriving DecidableEq, Repr

/-- The worker's `check_required_fields`: every field named by
`required_fields()` must be a key of the params dict (the source raises
an `Exception` naming the missing fields otherwise). -/
def requiredFieldsOk (required : List String) (params : Params) : Bool :=
  required.all fun f => params.contains f

/-- The parameter names of `PBPTUtils.get_file_lock` as defined in
`pbpt_utils.py` (line 45): `input_file, sleep_period, wait_iters,
use_except` — there is no `timeout` parameter. -/
def getFileLockParams : List String :=
  ["input_file", "sleep_period", "wait_iters", "use_except"]

/-- The keyword arguments of the `get_file_lock` call that opens every
iteration of `std_run`'s worker loop (`pbpt_q_process.py:508-514`):
`sleep_period=1, wait_iters=180, use_except=False, timeout=300`. -/
def stdRunLockKwargs : List String :=
  ["sleep_period", "wait_iters", "use_except", "timeout"]

/-- Python keyword-argument binding for this call (no `**kwargs` in the
callee): the call binds only if every keyword names a parameter of the
callee; otherwise Python raises
`TypeError: ... got an unexpected keyword argument ...` at the call
site, before the callee's body runs. -/
def kwargsBindOk (params kwargs : List String) : Bool :=
  kwargs.all fun k => params.contains k

/-- One iteration of the `while True` loop of
`PBPTQProcessTool.std_run` (no debug job id).  The first expression of
each iteration is the `get_file_lock` call with keyword `timeout=300`;
since `PBPTUtils.get_file_lock` accepts no `timeout` parameter, Python
raises `TypeError` there — inside neither `try` block — so the
exception escapes `std_run` with the store untouched.  The rest of the
body, modelled for the reachable-if-the-call-bound case, is: query and
claim the next job (`claimNext`), run `check_required_fields` *outside*
the `try` (a missing required field raises out of the loop), then
`do_processing`/`completed_processing` under the `try` whose handler
records failures via `record_process_error` (`procOk` models their
success, `err` the captured error dict). -/
def stdRunStep (required : List String) (procOk : Params → Bool) (err : ErrInfo)
    (now tEnd : Nat) (db : List Job) : StepResult :=
  if !kwargsBindOk getFileLockParams stdRunLockKwargs then .raised db
  else
    match claimNext now db with
    | (none, _) => .terminated
    | (some (pid, params), db1) =>
      if requiredFieldsOk required params then
        if procOk params then .looped (completedProcessing pid tEnd db1)
        else .looped (recordProcessError pid err db1)
      else .raised db1

/-- The store operations named by the spec's invariant claim, minus
`checkOutputs` (see the `C2` theorems): claim, mark-completed,
mark-error, and the two bulk output-reset scopes. -/
inductive StoreOp where
  | claim : Nat → StoreOp
  | complete : Nat → Nat → StoreOp
  | markError : Nat → ErrInfo → StoreOp
  | removeAll : StoreOp
  | removeErrs : StoreOp
deriving DecidableEq, Repr

/-- Apply one store operation to a store state. -/
def applyOp (db : List Job) : StoreOp → List Job
  | .claim now => (claimNext now db).2
  | .complete pid tEnd => completedProcessing pid tEnd db
  | .markError pid err => recordProcessError pid err db
  | .removeAll => removeJobOutputsAll db
  | .removeErrs => removeJobOutputsErrs db

/-- Apply a sequence of store operations, oldest first. -/
def applyOps (ops : List StoreOp) (db : List Job) : List Job :=
  ops.foldl applyOp db

/-- The spec's record invariant: `Error == true` implies
`Completed == false` and `End` is unset. -/
def errInvariant (j : Job) : Bool := !j.Error || (!j.Completed && j.End.isNone)

end PBPT

namespace SplitCmds

/-!
Shallow embedding of `bin/splitcmdslist.py`.  A group file's content is
modelled as the list of commands written into it; the manifest is the
list of groups in generation order (file naming is not modelled).
-/

/-- The contiguous branch of `splitByNumCommands` (for `k > 0`):
`floor(n/k)` slices `cmds[i*k : (i+1)*k]`, then — when
`n_remain = n - floor(n/k)*k` is positive — the trailing slice
`cmds[floor(n/k)*k : n]`. -/
def splitContiguous (cmds : List α) (k : Nat) : List (List α) :=
  (List.range (cmds.length / k)).map (fun i => (cmds.drop (i * k)).take k)
    ++ (if cmds.length % k ≠ 0 then [cmds.drop (cmds.length / k * k)] else [])

/-- The dealing loop of the `deal_split` branch: commands are appended in
order to buckets `0, 1, ..., g-1, 0, 1, ...` (`c_lst` is incremented and
reset to 0 once it reaches the number of output files). -/
def dealLoop (g : Nat) : List (List α) → Nat → List α → List (List α)
  | buckets, _, [] => buckets
  | buckets, c, x :: rest =>
    dealLoop g (buckets.set c (buckets.getD c [] ++ [x]))
      (if c + 1 ≥ g then 0 else c + 1) rest

/-- The number of output files of the `deal_split=True` branch:
`n_out_files = floor(n/k)`, incremented by one when a remainder
`n - floor(n/k)*k` exists. -/
def dealGroupCount (n k : Nat) : Nat := n / k + (if n % k ≠ 0 then 1 else 0)

/-- The `deal_split=True` branch of `splitByNumCommands` (for `k > 0`):
the commands are dealt round-robin over `dealGroupCount n k` buckets. -/
def splitDeal (cmds : List α) (k : Nat) : List (List α) :=
  dealLoop (dealGroupCount cmds.length k)
    (List.replicate (dealGroupCount cmds.length k) []) 0 cmds

/-- Reference rendering of the dealing loop used to reason about it:
the contents of bucket `j` after dealing `l` starting with counter `c`
(bucket `j` receives the elements dealt while the counter equals `j`,
in order). -/
def dealSpec (g : Nat) : Nat → List α → Nat → List α
  | _, [], _ => []
  | c, x :: rest, j =>
    (if c = j then [x] else []) ++
      dealSpec g (if c + 1 ≥ g then 0 else c + 1) rest j

/-- The group count produced by `splitIntoNFiles` with `deal_split`:
`dealGroupCount n k` for the computed per-file command count
`k = ceil(n/m)`. -/
def nfilesGroupCount (n m : Nat) : Nat := dealGroupCount n ((n + m - 1) / m)

/-- `splitByNumCommands`: Python evaluates `n_cmds / n_out_cmds` first,
which raises `ZeroDivisionError` when the requested group size is 0. -/
def splitByNumCommands (cmds : List α) (k : Nat) (dealSplit : Bool) :
    Except String (List (List α)) :=
  if k = 0 then .error "ZeroDivisionError"
  else .ok (if dealSplit then splitDeal cmds k else splitContiguous cmds k)

/-- `splitIntoNFiles`: `n_cmds_perfile = math.ceil(n_cmds / n_out_files)`
(raising `ZeroDivisionError` when the file count is 0), then delegate to
`splitByNumCommands` with that group size. -/
def splitIntoNFiles (cmds : List α) (m : Nat) (dealSplit : Bool) :
    Except String (List (List α)) :=
  if m = 0 then .error "ZeroDivisionError"
  else splitByNumCommands cmds ((cmds.length + m - 1) / m) dealSplit

/-- The `__main__` dispatch of `splitcmdslist.py` over the `--split` and
`--nfiles` integer arguments: raise when both are 0; raise when both are
positive; run `splitByNumCommands` when `--split` is positive, else
`splitIntoNFiles` when `--nfiles` is positive; otherwise (some argument
negative, neither positive) fall through and do nothing — `.ok none`
means the program exits without partitioning anything. -/
def mainDispatch (split nfiles : Int) (cmds : List α) (dealSplit : Bool) :
    Except String (Option (List (List α))) :=
  if split = 0 ∧ nfiles = 0 then
    .error "You must specify either --split or --files."
  else if split > 0 ∧ nfiles > 0 then
    .error "You have specified both --split and --files just specify one."
  else if split > 0 then
    (splitByNumCommands cmds split.toNat dealSplit).map some
  else if nfiles > 0 then
    (splitIntoNFiles cmds nfiles.toNat dealSplit).map some
  else .ok none

end SplitCmds

namespace PBPTUtilsM

/-!
Shallow embedding of the lock-file utilities of
`pbprocesstools/pbpt_utils.py`: the timestamp format written by
`get_file_lock` (`datetime.datetime.now().isoformat()` plus a newline),
the parsing performed by `clean_file_locks`
(`datetime.datetime.fromisoformat` after `readTextFileNoNewLines` and
`.strip()`), and the stale-lock sweep itself.  File contents are lists
of characters; a directory of lock files (the result of the
`glob.glob(".*.lok")` scan) is a list of contents in scan order.
-/

/-- A Python `datetime.datetime` value (naive, no timezone): the fields
`isoformat` prints and `fromisoformat` reconstructs. -/
structure PyDateTime where
  year : Nat
  month : Nat
  day : Nat
  hour : Nat
  minute : Nat
  second : Nat
  microsecond : Nat
deriving DecidableEq, Repr

/-- Days in a month of the proleptic Gregorian calendar
(`datetime`'s `_days_in_month`). -/
def daysInMonth (y m : Nat) : Nat :=
  if m = 2 then (if y % 4 = 0 ∧ (y % 100 ≠ 0 ∨ y % 400 = 0) then 29 else 28)
  else if m = 4 ∨ m = 6 ∨ m = 9 ∨ m = 11 then 30
  else 31

/-- The range checks of the `datetime.datetime` constructor
(`MINYEAR = 1`, `MAXYEAR = 9999`). -/
def PyDateTime.valid (d : PyDateTime) : Prop :=
  1 ≤ d.year ∧ d.year ≤ 9999 ∧ 1 ≤ d.month ∧ d.month ≤ 12 ∧
    1 ≤ d.day ∧ d.day ≤ daysInMonth d.year d.month ∧
    d.hour ≤ 23 ∧ d.minute ≤ 59 ∧ d.second ≤ 59 ∧ d.microsecond ≤ 999999

instance (d : PyDateTime) : Decidable d.valid := by
  unfold PyDateTime.valid; infer_instance

/-- The decimal digit character for `k < 10`. -/
def digitChar (k : Nat) : Char := Char.ofNat (48 + k)

/-- Read one decimal digit character. -/
def readDigit (c : Char) : Option Nat :=
  if 48 ≤ c.toNat ∧ c.toNat ≤ 57 then some (c.toNat - 48) else none

/-- Zero-padded two-digit decimal rendering (`%02d`). -/
def pad2 (n : Nat) : List Char := [digitChar (n / 10), digitChar (n % 10)]

/-- Zero-padded four-digit decimal rendering (`%04d`). -/
def pad4 (n : Nat) : List Char :=
  [digitChar (n / 1000), digitChar (n / 100 % 10), digitChar (n / 10 % 10),
    digitChar (n % 10)]

/-- Zero-padded six-digit decimal rendering (`%06d`). -/
def pad6 (n : Nat) : List Char :=
  [digitChar (n / 100000), digitChar (n / 10000 % 10), digitChar (n / 1000 % 10),
    digitChar (n / 100 % 10), digitChar (n / 10 % 10), digitChar (n % 10)]

/-- Parse two digit characters as a two-digit number. -/
def parse2 (a b : Char) : Option Nat :=
  (readDigit a).bind fun x => (readDigit b).bind fun y => some (10 * x + y)

/-- Parse four digit characters as a four-digit number. -/
def parse4 (a b c d : Char) : Option Nat :=
  (readDigit a).bind fun x => (readDigit b).bind fun y =>
    (readDigit c).bind fun z => (readDigit d).bind fun w =>
      some (1000 * x + 100 * y + 10 * z + w)

/-- `datetime.isoformat()`: `YYYY-MM-DDTHH:MM:SS`, with `.ffffff`
appended only when the microsecond component is non-zero. -/
def isoformat (d : PyDateTime) : List Char :=
  pad4 d.year ++ '-' :: pad2 d.month ++ '-' :: pad2 d.day ++
    'T' :: pad2 d.hour ++ ':' :: pad2 d.minute ++ ':' :: pad2 d.second ++
    (if d.microsecond = 0 then [] else '.' :: pad6 d.microsecond)

/-- Build the parsed datetime, applying the constructor's range checks
(`fromisoformat` feeds the parsed components to `datetime(...)`, which
raises `ValueError` outside the valid ranges). -/
def mkDateTime (y mo d h mi s us : Nat) : Option PyDateTime :=
  if (⟨y, mo, d, h, mi, s, us⟩ : PyDateTime).valid then
    some ⟨y, mo, d, h, mi, s, us⟩
  else none

/-- Parse the time portion of an ISO string
(`HH[:MM[:SS[.fff[fff]]]]`, as accepted by `fromisoformat`),
returning hour/minute/second/microsecond. -/
def parseTimePart : List Char → Option (Nat × Nat × Nat × Nat)
  | [a, b] => (parse2 a b).bind fun h => some (h, 0, 0, 0)
  | [a, b, c1, c, d] =>
    if c1 = ':' then
      (parse2 a b).bind fun h => (parse2 c d).bind fun mi => some (h, mi, 0, 0)
    else none
  | [a, b, c1, c, d, c2, e, f] =>
    if c1 = ':' ∧ c2 = ':' then
      (parse2 a b).bind fun h => (parse2 c d).bind fun mi =>
        (parse2 e f).bind fun s => some (h, mi, s, 0)
    else none
  | [a, b, c1, c, d, c2, e, f, dot, g1, g2, g3] =>
    if c1 = ':' ∧ c2 = ':' ∧ dot = '.' then
      (parse2 a b).bind fun h => (parse2 c d).bind fun mi =>
        (parse2 e f).bind fun s =>
          (readDigit g1).bind fun x => (readDigit g2).bind fun y =>
            (readDigit g3).bind fun z =>
              some (h, mi, s, (100 * x + 10 * y + z) * 1000)
    else none
  | [a, b, c1, c, d, c2, e, f, dot, g1, g2, g3, g4, g5, g6] =>
    if c1 = ':' ∧ c2 = ':' ∧ dot = '.' then
      (parse2 a b).bind fun h => (parse2 c d).bind fun mi =>
        (parse2 e f).bind fun s =>
          (readDigit g1).bind fun x1 => (readDigit g2).bind fun x2 =>
            (readDigit g3).bind fun x3 => (readDigit g4).bind fun x4 =>
              (readDigit g5).bind fun x5 => (readDigit g6).bind fun x6 =>
                some (h, mi, s,
                  100000 * x1 + 10000 * x2 + 1000 * x3 + 100 * x4 + 10 * x5 + x6)
    else none
  | _ => none

/-- `datetime.datetime.fromisoformat`: `YYYY-MM-DD` optionally followed
by a single separator character and a time string; any failure raises
`ValueError`, modelled by `none`. -/
def fromisoformat (cs : List Char) : Option PyDateTime :=
  match cs with
  | y1 :: y2 :: y3 :: y4 :: s1 :: mo1 :: mo2 :: s2 :: d1 :: d2 :: rest =>
    if s1 = '-' ∧ s2 = '-' then
      (parse4 y1 y2 y3 y4).bind fun y =>
        (parse2 mo1 mo2).bind fun mo =>
          (parse2 d1 d2).bind fun d =>
            match rest with
            | [] => mkDateTime y mo d 0 0 0 0
            | _sep :: tstr =>
              (parseTimePart tstr).bind fun t =>
                mkDateTime y mo d t.1 t.2.1 t.2.2.1 t.2.2.2
    else none
  | _ => none

/-- Python `str.strip()` whitespace set, as used on lock-file lines. -/
def isPySpace (c : Char) : Bool :=
  c = ' ' ∨ c = '\t' ∨ c = '\n' ∨ c = '\r' ∨ c = '\x0b' ∨ c = '\x0c'

/-- Python `str.strip()`: drop leading and trailing whitespace. -/
def stripChars (cs : List Char) : List Char :=
  (cs.dropWhile isPySpace).reverse.dropWhile isPySpace |>.reverse

/-- Split a file's content into lines at newline characters
(line iteration of a Python text file, newline kept or not is immaterial
because each line is stripped). -/
def splitNewlines (cs : List Char) : List (List Char) :=
  cs.foldr
    (fun c acc =>
      match acc with
      | [] => if c = '\n' then [[], []] else [[c]]
      | l :: ls => if c = '\n' then [] :: (l :: ls) else (c :: l) :: ls)
    []

/-- `PBPTUtils.readTextFileNoNewLines`: concatenate the `.strip()` of
every line of the file. -/
def readNoNewlines (cs : List Char) : List Char :=
  ((splitNewlines cs).map stripChars).flatten

/-- The content `get_file_lock` writes into a fresh lock file:
`'{}\n'.format(datetime.datetime.now().isoformat())`. -/
def lockFileContent (d : PyDateTime) : List Char := isoformat d ++ ['\n']

/-- Python's proleptic-Gregorian `datetime.toordinal`, in days:
days strictly before year `y` plus days before the month plus the day. -/
def daysBeforeYear (y : Nat) : Nat :=
  365 * (y - 1) + (y - 1) / 4 - (y - 1) / 100 + (y - 1) / 400

/-- Cumulative days before month `m` (1-based) in year `y`. -/
def daysBeforeMonth (y m : Nat) : Nat :=
  [0, 0, 31, 59, 90, 120, 151, 181, 212, 243, 273, 304, 334].getD m 0 +
    (if 2 < m ∧ y % 4 = 0 ∧ (y % 100 ≠ 0 ∨ y % 400 = 0) then 1 else 0)

/-- Microseconds since the ordinal epoch; datetime subtraction
(`(a - b).total_seconds()`) is the difference of these, scaled. -/
def epochMicros (d : PyDateTime) : Int :=
  (((daysBeforeYear d.year + daysBeforeMonth d.year d.month + d.day) * 86400 +
      d.hour * 3600 + d.minute * 60 + d.second : Nat) : Int) * 1000000 +
    (d.microsecond : Int)

/-- `(now - create).total_seconds() > timeout`, compared exactly in
microseconds (the float rounding of `total_seconds` is immaterial at
lock-file time scales). -/
def staleLock (now create : PyDateTime) (timeout : Int) : Bool :=
  epochMicros now - epochMicros create > timeout * 1000000

/-- `PBPTUtils.clean_file_locks` over the scanned lock files in order:
strip each file's content; an empty content means the file is removed;
otherwise the content is fed to `fromisoformat` — an unparseable content
raises `ValueError`, which aborts the sweep leaving that file and all
later ones untouched; a parsed timestamp older than `timeout` seconds
means the file is removed, otherwise it is kept.  Returns the files
remaining in the directory and whether an exception was raised. -/
def cleanFileLocks (now : PyDateTime) (timeout : Int) :
    List (List Char) → List (List Char) × Bool
  | [] => ([], false)
  | f :: rest =>
    let s := stripChars (readNoNewlines f)
    if s.isEmpty then cleanFileLocks now timeout rest
    else
      match fromisoformat s with
      | none => (f :: rest, true)
      | some d =>
        if staleLock now d timeout then cleanFileLocks now timeout rest
        else
          let r := cleanFileLocks now timeout rest
          (f :: r.1, r.2)

/-- The keep-decision of one sweep step of `clean_file_locks`, for a
lock file that parses: kept exactly when its timestamp is within the
timeout.  A file whose stripped content does not parse is never kept by
a completed sweep (empty content is removed; anything else aborts the
sweep). -/
def keepLock (now : PyDateTime) (timeout : Int) (f : List Char) : Bool :=
  match fromisoformat (stripChars (readNoNewlines f)) with
  | none => false
  | some d => !staleLock now d timeout

/-- A lock-file content on which `clean_file_locks` cannot raise: the
stripped content is either empty or a parseable timestamp. -/
def goodLockContent (f : List Char) : Prop :=
  stripChars (readNoNewlines f) = []
    ∨ (fromisoformat (stripChars (readNoNewlines f))).isSome

instance (f : List Char) : Decidable (goodLockContent f) := by
  unfold goodLockContent
  infer_instance

/-- `PBPTUtils.release_file_lock`, at the level of the set of files
present in the lock directory: when the lock file exists it is removed
(`os.remove`, with a `clean_file_locks` fallback which cannot raise);
when it does not exist the body under `if os.path.exists(...)` is
skipped entirely. -/
def releaseFileLock (files : List String) (lockPath : String) : List String :=
  if files.contains lockPath then files.erase lockPath else files

end PBPTUtilsM

namespace PBPT

lemma selectJob_none_iff (db : List Job) :
    selectJob db = none ↔ ∀ j ∈ db, eligible j = false := by
  induction db with
  | nil => simp [selectJob]
  | cons j rest ih =>
    constructor
    · intro h r hr
      by_cases hj : eligible j = true
      · exfalso
        simp only [selectJob, hj, if_true] at h
        cases hsr : selectJob rest with
        | none =>
          simp only [hsr] at h
          exact Option.noConfusion h
        | some b =>
          simp only [hsr] at h
          split at h <;> exact Option.noConfusion h
      · have hj' : eligible j = false := by simpa using hj
        rcases List.mem_cons.mp hr with rfl | hr'
        · exact hj'
        · have hrest : selectJob rest = none := by
            simpa [selectJob, hj'] using h
          exact ih.mp hrest r hr'
    · intro h
      have hj : eligible j = false := h j (by simp)
      have hrest : selectJob rest = none :=
        ih.mpr fun r hr => h r (List.mem_cons_of_mem _ hr)
      simp [selectJob, hj, hrest]

lemma selectJob_spec (db : List Job) (j : Job) (h : selectJob db = some j) :
    j ∈ db ∧ eligible j = true ∧ ∀ r ∈ db, eligible r = true → j.PID ≤ r.PID := by
  induction db generalizing j with
  | nil => simp [selectJob] at h
  | cons a rest ih =>
    by_cases ha : eligible a = true
    · simp only [selectJob, ha, if_true] at h
      cases hsr : selectJob rest with
      | none =>
        simp only [hsr] at h
        cases h
        refine ⟨by simp, ha, ?_⟩
        intro r hr hre
        rcases List.mem_cons.mp hr with rfl | hr
        · exact le_refl _
        · exact absurd hre (by simp [(selectJob_none_iff rest).mp hsr r hr])
      | some b =>
        simp only [hsr] at h
        obtain ⟨hbmem, hbe, hbmin⟩ := ih b hsr
        by_cases hlt : b.PID < a.PID
        · rw [if_pos hlt] at h
          cases h
          refine ⟨List.mem_cons_of_mem _ hbmem, hbe, ?_⟩
          intro r hr hre
          rcases List.mem_cons.mp hr with rfl | hr
          · exact le_of_lt hlt
          · exact hbmin r hr hre
        · rw [if_neg hlt] at h
          cases h
          refine ⟨by simp, ha, ?_⟩
          intro r hr hre
          rcases List.mem_cons.mp hr with rfl | hr
          · exact le_refl _
          · exact le_trans (le_of_not_lt hlt) (hbmin r hr hre)
    · simp only [selectJob, ha, if_false] at h
      obtain ⟨hmem, he, hmin⟩ := ih j h
      refine ⟨List.mem_cons_of_mem _ hmem, he, ?_⟩
      intro r hr hre
      rcases List.mem_cons.mp hr with rfl | hr
      · exact absurd hre (by simp [ha])
      · exact hmin r hr hre

/-- **C1.** The claimed behaviour is unreachable in the source: the
`get_file_lock` call that opens every iteration of `std_run`'s worker
loop passes the keyword `timeout=300`, which `PBPTUtils.get_file_lock`
does not accept, so the keyword binding fails and Python raises
`TypeError` before the store is queried.  Hence, for every store state,
the step neither claims a record nor terminates the loop normally: it
raises with the store exactly unchanged (no `Started` flag set, no
`Start` time written, no `JobParams` handed to the worker). -/
theorem C1_std_run_lock_crash (required : List String) (procOk : Params → Bool)
    (err : ErrInfo) (now tEnd : Nat) (db : List Job) :
    kwargsBindOk getFileLockParams stdRunLockKwargs = false
    ∧ stdRunStep required procOk err now tEnd db = .raised db
    ∧ stdRunStep required procOk err now tEnd db ≠ .terminated
    ∧ ∀ db1, stdRunStep required procOk err now tEnd db ≠ .looped db1 := by
  have hbind : kwargsBindOk getFileLockParams stdRunLockKwargs = false := by
    decide
  have hstep : stdRunStep required procOk err now tEnd db = .raised db := by
    rw [stdRunStep, hbind]
    rfl
  exact ⟨hbind, hstep, by rw [hstep]; exact fun h => StepResult.noConfusion h,
    fun db1 => by rw [hstep]; exact fun h => StepResult.noConfusion h⟩

lemma errInvariant_all_map (f : Job → Job)
    (hf : ∀ j, errInvariant j = true → errInvariant (f j) = true)
    (db : List Job) (h : db.all errInvariant = true) :
    (db.map f).all errInvariant = true := by
  rw [List.all_eq_true] at *
  intro x hx
  obtain ⟨j, hj, rfl⟩ := List.mem_map.mp hx
  exact hf j (h j hj)

lemma errInvariant_applyOp (db : List Job) (op : StoreOp)
    (h : db.all errInvariant = true) : (applyOp db op).all errInvariant = true := by
  cases op with
  | claim now =>
    simp only [applyOp, claimNext]
    cases hsel : selectJob db with
    | none => simpa using h
    | some j =>
      simp only
      refine errInvariant_all_map _ ?_ _ h
      intro r hr
      unfold claimUpd
      split <;> simpa [errInvariant] using hr
  | complete pid tEnd =>
    simp only [applyOp, completedProcessing]
    refine errInvariant_all_map _ ?_ _ h
    intro r hr
    split <;> simp_all [errInvariant]
  | markError pid e =>
    simp only [applyOp, recordProcessError]
    refine errInvariant_all_map _ ?_ _ h
    intro r hr
    split <;> simp_all [errInvariant]
  | removeAll =>
    simp only [applyOp, removeJobOutputsAll]
    refine errInvariant_all_map _ ?_ _ h
    intro r _
    simp [resetJob, errInvariant]
  | removeErrs =>
    simp only [applyOp, removeJobOutputsErrs]
    refine errInvariant_all_map _ ?_ _ h
    intro r hr
    split <;> simp_all [resetJob, errInvariant]

/-- **C2 (amended).** The invariant `Error == true → Completed == false
and End unset` is preserved by every sequence of claim,
`completed_processing`, `record_process_error` and `remove_job_outputs`
(both scopes) operations; `check_job_outputs` is excluded because it
violates the invariant (see `C2_counterexample`). -/
theorem C2_invariant_preserved (ops : List StoreOp) (db : List Job)
    (h : db.all errInvariant = true) :
    (applyOps ops db).all errInvariant = true := by
  induction ops generalizing db with
  | nil => exact h
  | cons op rest ih => exact ih _ (errInvariant_applyOp db op h)

/-- Witness for `C2_invariant_preserved`: claim PID 0, record an error
on it, reset error jobs, claim again, complete. -/
theorem C2_invariant_preserved_witness :
    ([⟨0, ["a"], none, none, false, false, false, false, none⟩] : List Job).all
        errInvariant = true
    ∧ (applyOps [.claim 1, .markError 0 "boom", .removeErrs, .claim 3, .complete 0 5]
        [⟨0, ["a"], none, none, false, false, false, false, none⟩]).all
        errInvariant = true :=
  ⟨by decide,
   C2_invariant_preserved [.claim 1, .markError 0 "boom", .removeErrs, .claim 3, .complete 0 5]
     [⟨0, ["a"], none, none, false, false, false, false, none⟩] (by decide)⟩

/-- **C2 (counterexample).** `check_job_outputs` breaks the claimed
invariant: on a store satisfying it (one completed job, `End` set,
unchecked) whose outputs are reported missing, the job ends up with
`Error == true` while `Completed == true` and `End` still set. -/
theorem C2_counterexample :
    ([⟨0, ["a"], some 1, some 5, true, true, false, false, none⟩] : List Job).all
        errInvariant = true
    ∧ checkJobOutputs (fun _ => (false, "missing output"))
        [⟨0, ["a"], some 1, some 5, true, true, false, false, none⟩]
      = [⟨0, ["a"], some 1, some 5, true, true, false, true, some "missing output"⟩]
    ∧ (checkJobOutputs (fun _ => (false, "missing output"))
        [⟨0, ["a"], some 1, some 5, true, true, false, false, none⟩]).all
        errInvariant = false := by
  refine ⟨by decide, by decide, by decide⟩

/-- **C3.** The claimed behaviour is unreachable in the source: in a
store whose next-to-claim record's params lack a declared required
field — exactly the scenario the claim is about — the worker loop step
raises the `TypeError` from the `get_file_lock(..., timeout=300)` call
(pbpt_q_process.py:508) before any job is claimed, so the job is left
unstarted (`Started = false`, as it was) with no `Error`/`ErrorInfo`
recorded, and the worker stops instead of continuing to further jobs.
The missing-field failure is thus never recorded as the job's error;
and even with a `timeout`-accepting `get_file_lock`, the
`check_required_fields` call at line 562 sits outside the
`try`/`except` of lines 563-572, so its exception would also escape
the loop unrecorded. -/
theorem C3_missing_field_unreachable (required : List String)
    (procOk : Params → Bool) (err : ErrInfo) (now tEnd : Nat) (db : List Job)
    (j : Job) (hsel : selectJob db = some j)
    (hmiss : requiredFieldsOk required j.JobParams = false) :
    stdRunStep required procOk err now tEnd db = .raised db
    ∧ j ∈ db ∧ j.Started = false ∧ j.Completed = false := by
  have hbind : kwargsBindOk getFileLockParams stdRunLockKwargs = false := by
    decide
  obtain ⟨hmem, he, _⟩ := selectJob_spec db j hsel
  have hse : j.Started = false ∧ j.Completed = false := by
    rw [eligible] at he
    constructor
    · rcases hb : j.Started
      · rfl
      · rw [hb] at he
        exact Bool.noConfusion he
    · rcases hb : j.Completed
      · rfl
      · rw [hb] at he
        simp at he
  refine ⟨?_, hmem, hse.1, hse.2⟩
  rw [stdRunStep, hbind]
  rfl

/-- Witness for `C3_missing_field_unreachable`: two unstarted jobs, the
one `std_run` would claim first (PID 0) missing the required field
`"in_file"`. -/
theorem C3_missing_field_unreachable_witness :
    selectJob ([⟨0, ["other"], none, none, false, false, false, false, none⟩,
                ⟨1, ["in_file"], none, none, false, false, false, false, none⟩] : List Job)
      = some ⟨0, ["other"], none, none, false, false, false, false, none⟩
    ∧ requiredFieldsOk ["in_file"]
        (Job.JobParams ⟨0, ["other"], none, none, false, false, false, false, none⟩)
      = false
    ∧ (stdRunStep ["in_file"] (fun _ => false) "err" 4 6
          [⟨0, ["other"], none, none, false, false, false, false, none⟩,
           ⟨1, ["in_file"], none, none, false, false, false, false, none⟩]
        = .raised [⟨0, ["other"], none, none, false, false, false, false, none⟩,
                   ⟨1, ["in_file"], none, none, false, false, false, false, none⟩]
      ∧ (⟨0, ["other"], none, none, false, false, false, false, none⟩ : Job)
          ∈ ([⟨0, ["other"], none, none, false, false, false, false, none⟩,
              ⟨1, ["in_file"], none, none, false, false, false, false, none⟩] : List Job)
      ∧ Job.Started ⟨0, ["other"], none, none, false, false, false, false, none⟩ = false
      ∧ Job.Completed ⟨0, ["other"], none, none, false, false, false, false, none⟩
          = false) :=
  ⟨by decide, by decide,
   C3_missing_field_unreachable ["in_file"] (fun _ => false) "err" 4 6 _ _
     (by decide) (by decide)⟩

/-- **C6.** `pop_params_db` discards any prior store content and
creates one record per input entry: `PID`s are `0..N` in input order,
each `JobParams` is the corresponding input entry, and `Started`,
`Completed`, `Error` and `Checked` are all false. -/
theorem C6_pop_params_db (oldDb : List Job) (ps : List Params) :
    popParamsDb oldDb ps = popParamsDb [] ps
    ∧ (popParamsDb oldDb ps).length = ps.length
    ∧ (popParamsDb oldDb ps).map (·.PID) = List.range ps.length
    ∧ (popParamsDb oldDb ps).map (·.JobParams) = ps
    ∧ (popParamsDb oldDb ps).all
        (fun j => !j.Started && !j.Completed && !j.Error && !j.Checked) = true := by
  refine ⟨rfl, ?_, ?_, ?_, ?_⟩
  · simp [popParamsDb]
  · rw [popParamsDb, List.map_map]
    have : ((fun j : Job => j.PID) ∘ fun ip : Nat × Params =>
        ({ PID := ip.1, JobParams := ip.2, Start := none, End := none,
           Started := false, Completed := false, Checked := false, Error := false,
           ErrorInfo := none } : Job)) = Prod.fst := rfl
    rw [this, List.enum_map_fst]
  · rw [popParamsDb, List.map_map]
    have : ((fun j : Job => j.JobParams) ∘ fun ip : Nat × Params =>
        ({ PID := ip.1, JobParams := ip.2, Start := none, End := none,
           Started := false, Completed := false, Checked := false, Error := false,
           ErrorInfo := none } : Job)) = Prod.snd := rfl
    rw [this, List.enum_map_snd]
  · rw [List.all_eq_true]
    intro x hx
    obtain ⟨ip, _, rfl⟩ := List.mem_map.mp hx
    rfl

end PBPT

/-- **C9.** `release_file_lock` on an already-released lock (the lock
file is absent from the directory) is a no-op: the set of files is
unchanged (and, structurally, the only statements of the function sit
under `if os.path.exists(lock_file_path)`, so nothing can raise). -/
theorem C9_release_absent (files : List String) (lockPath : String)
    (h : files.contains lockPath = false) :
    PBPTUtilsM.releaseFileLock files lockPath = files := by
  have h' : lockPath ∉ files := by simpa using h
  simp [PBPTUtilsM.releaseFileLock, h']

/-- Witness for `C9_release_absent`. -/
theorem C9_release_absent_witness :
    (["proc.db", ".other.lok"] : List String).contains ".proc.db.lok" = false
    ∧ PBPTUtilsM.releaseFileLock ["proc.db", ".other.lok"] ".proc.db.lok"
      = ["proc.db", ".other.lok"] :=
  ⟨by decide, C9_release_absent _ _ (by decide)⟩

namespace SplitCmds

lemma ceil_div_eq (n k : Nat) (hk : 0 < k) :
    (n + k - 1) / k = n / k + if n % k ≠ 0 then 1 else 0 := by
  obtain ⟨q, r, hr, rfl⟩ : ∃ q r, r < k ∧ n = k * q + r :=
    ⟨n / k, n % k, Nat.mod_lt _ hk, (Nat.div_add_mod n k).symm⟩
  rw [Nat.mul_add_div hk, Nat.mul_add_mod, Nat.mod_eq_of_lt hr,
    Nat.div_eq_of_lt hr]
  rcases Nat.eq_zero_or_pos r with rfl | hr1
  · have h1 : k * q + 0 + k - 1 = k * q + (k - 1) := by omega
    rw [h1, Nat.mul_add_div hk, Nat.div_eq_of_lt (by omega)]
    simp
  · have h1 : k * q + r + k - 1 = k * (q + 1) + (r - 1) := by
      rw [Nat.mul_succ]; omega
    rw [h1, Nat.mul_add_div hk, Nat.div_eq_of_lt (by omega)]
    simp [Nat.pos_iff_ne_zero.mp hr1]

lemma flatten_chunks (cmds : List α) (k m : Nat) :
    ((List.range m).map (fun i => (cmds.drop (i * k)).take k)).flatten
      = cmds.take (m * k) := by
  induction m with
  | zero => simp
  | succ m ih =>
    rw [List.range_succ, List.map_append, List.flatten_append, ih]
    simp only [List.map_cons, List.map_nil, List.flatten_cons, List.flatten_nil,
      List.append_nil]
    rw [Nat.succ_mul, List.take_add]

lemma chunk_lengths (cmds : List α) (k : Nat) (hk : 0 < k) :
    ((List.range (cmds.length / k)).map
        (fun i => (cmds.drop (i * k)).take k)).map List.length
      = List.replicate (cmds.length / k) k := by
  rw [List.map_map]
  refine List.eq_replicate_iff.mpr ⟨by simp, ?_⟩
  intro b hb
  obtain ⟨i, hi, rfl⟩ := List.mem_map.mp hb
  have hi' : i < cmds.length / k := List.mem_range.mp hi
  have h2 : (i + 1) * k ≤ cmds.length / k * k :=
    Nat.mul_le_mul_right k hi'
  have h3 : cmds.length / k * k ≤ cmds.length := Nat.div_mul_le_self _ _
  have h4 : i * k + k ≤ cmds.length := by
    rw [Nat.succ_mul] at h2; omega
  simp only [Function.comp_apply, List.length_take, List.length_drop]
  omega

/-- **C5.** Contiguous partitioning by a positive group size `k`:
the group sizes are `floor(n/k)` copies of `k` followed by a single
trailing group of `n mod k` exactly when `n mod k ≠ 0`; concatenating
the groups in order gives back the command list (so the sizes sum to
`n` and the relative order is preserved within and across groups); the
number of groups is `ceil(n/k)`. -/
theorem C5_split_contiguous (cmds : List α) (k : Nat) (hk : 0 < k) :
    (splitContiguous cmds k).map List.length
      = List.replicate (cmds.length / k) k
        ++ (if cmds.length % k ≠ 0 then [cmds.length % k] else [])
    ∧ (splitContiguous cmds k).flatten = cmds
    ∧ (splitContiguous cmds k).length = (cmds.length + k - 1) / k := by
  have hdm := Nat.div_add_mod cmds.length k
  refine ⟨?_, ?_, ?_⟩
  · rw [splitContiguous, List.map_append, chunk_lengths cmds k hk]
    by_cases hmod : cmds.length % k ≠ 0
    · rw [if_pos hmod, if_pos hmod]
      congr 1
      simp only [List.map_cons, List.map_nil, List.length_drop]
      have h2 : k * (cmds.length / k) = cmds.length / k * k := Nat.mul_comm _ _
      congr 1
      omega
    · rw [if_neg hmod, if_neg hmod]
      simp
  · rw [splitContiguous, List.flatten_append, flatten_chunks]
    by_cases hmod : cmds.length % k ≠ 0
    · rw [if_pos hmod]
      simp only [List.flatten_cons, List.flatten_nil, List.append_nil]
      exact List.take_append_drop _ _
    · rw [if_neg hmod]
      simp only [ne_eq, not_not] at hmod
      rw [List.flatten_nil, List.append_nil,
        Nat.div_mul_cancel (Nat.dvd_of_mod_eq_zero hmod)]
      simp
  · rw [splitContiguous, List.length_append, List.length_map, List.length_range,
      ceil_div_eq _ _ hk]
    by_cases hmod : cmds.length % k ≠ 0 <;> simp [hmod]

/-- Witness for `C5_split_contiguous`: seven commands in groups of
three give groups of sizes `3, 3, 1`. -/
theorem C5_split_contiguous_witness :
    0 < 3
    ∧ ((splitContiguous ([10, 11, 12, 13, 14, 15, 16] : List Nat) 3).map
          List.length
        = List.replicate (([10, 11, 12, 13, 14, 15, 16] : List Nat).length / 3) 3
          ++ (if ([10, 11, 12, 13, 14, 15, 16] : List Nat).length % 3 ≠ 0
              then [([10, 11, 12, 13, 14, 15, 16] : List Nat).length % 3] else [])
      ∧ (splitContiguous ([10, 11, 12, 13, 14, 15, 16] : List Nat) 3).flatten
        = [10, 11, 12, 13, 14, 15, 16]
      ∧ (splitContiguous ([10, 11, 12, 13, 14, 15, 16] : List Nat) 3).length
        = (([10, 11, 12, 13, 14, 15, 16] : List Nat).length + 3 - 1) / 3) :=
  ⟨by decide, C5_split_contiguous [10, 11, 12, 13, 14, 15, 16] 3 (by decide)⟩

lemma dealLoop_length (g : Nat) (l : List α) :
    ∀ (B : List (List α)) (c : Nat), (dealLoop g B c l).length = B.length := by
  induction l with
  | nil => intro B c; rfl
  | cons x rest ih =>
    intro B c
    rw [dealLoop, ih]
    simp

lemma dealLoop_getD (g : Nat) (l : List α) :
    ∀ (B : List (List α)) (c j : Nat), B.length = g → c < g → j < g →
      (dealLoop g B c l).getD j [] = B.getD j [] ++ dealSpec g c l j := by
  induction l with
  | nil =>
    intro B c j _ _ _
    simp [dealLoop, dealSpec]
  | cons x rest ih =>
    intro B c j hB hc hj
    rw [dealLoop, dealSpec]
    rw [ih _ _ _ (by simp [hB]) (by split <;> omega) hj]
    by_cases hcj : c = j
    · subst hcj
      rw [List.getD_eq_getElem?_getD, List.getElem?_set_self (by omega),
        List.getD_eq_getElem?_getD]
      simp
    · rw [List.getD_eq_getElem?_getD, List.getElem?_set_ne (by omega),
        ← List.getD_eq_getElem?_getD]
      simp [hcj]

lemma filterRng_cons (q : Nat → Bool) (x : α) (rest : List α) :
    List.filterMap (fun p => (x :: rest)[p]?)
        (List.filter q (List.range (rest.length + 1)))
      = (if q 0 then [x] else []) ++
        List.filterMap (fun p => rest[p]?)
          (List.filter (fun p => q (p + 1)) (List.range rest.length)) := by
  rw [List.range_succ_eq_map, List.filter_cons]
  have h1 : List.filter q (List.map Nat.succ (List.range rest.length))
      = List.map Nat.succ (List.filter (fun p => q (p + 1)) (List.range rest.length)) := by
    rw [List.filter_map]
    rfl
  have h2 : List.filterMap (fun p => (x :: rest)[p]?)
      (List.map Nat.succ (List.filter (fun p => q (p + 1)) (List.range rest.length)))
      = List.filterMap (fun p => rest[p]?)
        (List.filter (fun p => q (p + 1)) (List.range rest.length)) := by
    rw [List.filterMap_map]
    congr 1
    funext p
    exact List.getElem?_cons_succ
  by_cases h0 : q 0
  · rw [if_pos h0, if_pos h0, h1, List.filterMap_cons]
    simp only [List.getElem?_cons_zero]
    rw [h2]
    rfl
  · rw [if_neg h0, if_neg h0, h1, h2]
    rfl

lemma dealSpec_eq_filter (g : Nat) (hg : 0 < g) (l : List α) :
    ∀ (c j : Nat), c < g →
      dealSpec g c l j
        = List.filterMap (fun p => l[p]?)
            (List.filter (fun p => (c + p) % g = j) (List.range l.length)) := by
  induction l with
  | nil => intro c j _; simp [dealSpec]
  | cons x rest ih =>
    intro c j hc
    rw [dealSpec, List.length_cons, filterRng_cons]
    have hc2 : (if c + 1 ≥ g then 0 else c + 1) < g := by split <;> omega
    rw [ih _ j hc2]
    have hfe : (fun p => decide (((if c + 1 ≥ g then 0 else c + 1) + p) % g = j))
        = (fun p => decide ((c + (p + 1)) % g = j)) := by
      funext p
      rw [decide_eq_decide]
      split
      · next hge =>
        have hcg : c + (p + 1) = g + p := by omega
        rw [Nat.zero_add, hcg, Nat.add_mod_left]
      · next hge =>
        have harr : c + 1 + p = c + (p + 1) := by omega
        rw [harr]
    rw [hfe]
    simp only [decide_eq_true_eq, Nat.add_zero, Nat.mod_eq_of_lt hc]

lemma filter_mod_range (g j : Nat) (hg : 0 < g) (hj : j < g) :
    ∀ n, List.filter (fun p => p % g = j) (List.range n)
      = List.map (fun t => j + g * t)
          (List.range (n / g + if j < n % g then 1 else 0)) := by
  intro n
  induction n with
  | zero => simp
  | succ n ih =>
    rw [List.range_succ, List.filter_append, ih]
    obtain ⟨q, r, hr, hn⟩ : ∃ q r, r < g ∧ n = g * q + r :=
      ⟨n / g, n % g, Nat.mod_lt _ hg, (Nat.div_add_mod n g).symm⟩
    have hdiv : n / g = q := by
      rw [hn, Nat.mul_add_div hg, Nat.div_eq_of_lt hr, Nat.add_zero]
    have hmod : n % g = r := by rw [hn, Nat.mul_add_mod, Nat.mod_eq_of_lt hr]
    have hms : g * (q + 1) = g * q + g := Nat.mul_succ g q
    rw [hdiv, hmod]
    by_cases hrg : r + 1 = g
    · have hn1 : n + 1 = g * (q + 1) + 0 := by omega
      have hdiv1 : (n + 1) / g = q + 1 := by
        rw [hn1, Nat.mul_add_div hg, Nat.div_eq_of_lt hg, Nat.add_zero]
      have hmod1 : (n + 1) % g = 0 := by
        rw [hn1, Nat.mul_add_mod, Nat.zero_mod]
      rw [hdiv1, hmod1]
      have h2 : (if j < 0 then 1 else 0) = 0 := by rw [if_neg]; omega
      rw [h2, Nat.add_zero]
      by_cases hnj : r = j
      · have hfil : List.filter (fun p => p % g = j) [n] = [n] := by
          simp [hmod, hnj]
        have h1 : (if j < r then 1 else 0) = 0 := by rw [if_neg]; omega
        rw [hfil, h1, Nat.add_zero, List.range_succ, List.map_append]
        have hfq : j + g * q = n := by omega
        simp only [List.map_cons, List.map_nil, hfq]
      · have hfil : List.filter (fun p => p % g = j) [n] = [] := by
          simp [hmod, hnj]
        have h1 : (if j < r then 1 else 0) = 1 := by rw [if_pos]; omega
        rw [hfil, h1, List.append_nil]
    · have hn1 : n + 1 = g * q + (r + 1) := by omega
      have hdiv1 : (n + 1) / g = q := by
        rw [hn1, Nat.mul_add_div hg, Nat.div_eq_of_lt (by omega), Nat.add_zero]
      have hmod1 : (n + 1) % g = r + 1 := by
        rw [hn1, Nat.mul_add_mod, Nat.mod_eq_of_lt (by omega)]
      rw [hdiv1, hmod1]
      by_cases hnj : r = j
      · have hfil : List.filter (fun p => p % g = j) [n] = [n] := by
          simp [hmod, hnj]
        have h1 : (if j < r then 1 else 0) = 0 := by rw [if_neg]; omega
        have h2 : (if j < r + 1 then 1 else 0) = 1 := by rw [if_pos]; omega
        rw [hfil, h1, h2, Nat.add_zero, List.range_succ, List.map_append]
        have hfq : j + g * q = n := by omega
        simp only [List.map_cons, List.map_nil, hfq]
      · have hfil : List.filter (fun p => p % g = j) [n] = [] := by
          simp [hmod, hnj]
        have h12 : (if j < r + 1 then 1 else 0) = (if j < r then 1 else 0) := by
          by_cases hjr : j < r
          · rw [if_pos (by omega), if_pos hjr]
          · rw [if_neg (by omega), if_neg hjr]
        rw [hfil, h12, List.append_nil]

lemma filterMap_length_all_some {β : Type _} :
    ∀ (l : List Nat) (f : Nat → Option β), (∀ a ∈ l, (f a).isSome) →
      (l.filterMap f).length = l.length := by
  intro l f
  induction l with
  | nil => intro _; rfl
  | cons a rest ih =>
    intro h
    obtain ⟨b, hb⟩ := Option.isSome_iff_exists.mp (h a (by simp))
    rw [List.filterMap_cons, hb, List.length_cons, ih (fun x hx => h x (by simp [hx]))]
    rfl

lemma filterMap_getElem_all_some {β : Type _} :
    ∀ (l : List Nat) (f : Nat → Option β), (∀ a ∈ l, (f a).isSome) →
      ∀ (t : Nat), (l.filterMap f)[t]? = (l[t]?).bind f := by
  intro l f
  induction l with
  | nil => intro _ t; simp
  | cons a rest ih =>
    intro h t
    obtain ⟨b, hb⟩ := Option.isSome_iff_exists.mp (h a (by simp))
    rw [List.filterMap_cons, hb]
    cases t with
    | zero => simp [hb]
    | succ t =>
      simp only [List.getElem?_cons_succ]
      exact ih (fun x hx => h x (by simp [hx])) t

lemma deal_idx_lt (n G j : Nat) (hG : 0 < G) (hj : j < G) (t : Nat)
    (ht : t < n / G + if j < n % G then 1 else 0) : j + G * t < n := by
  have hdm := Nat.div_add_mod n G
  by_cases hjr : j < n % G
  · rw [if_pos hjr] at ht
    have ht2 : t ≤ n / G := by omega
    have hmul : G * t ≤ G * (n / G) := Nat.mul_le_mul_left G ht2
    omega
  · rw [if_neg hjr] at ht
    have ht2 : t + 1 ≤ n / G := by omega
    have hmul : G * (t + 1) ≤ G * (n / G) := Nat.mul_le_mul_left G ht2
    have hms : G * (t + 1) = G * t + G := Nat.mul_succ G t
    omega

lemma deal_div_lt_cnt (i n G : Nat) (hG : 0 < G) (hi : i < n) :
    i / G < n / G + if i % G < n % G then 1 else 0 := by
  have h1 : i / G ≤ n / G := Nat.div_le_div_right (le_of_lt hi)
  have hdi := Nat.div_add_mod i G
  have hdn := Nat.div_add_mod n G
  by_cases he : i / G = n / G
  · have hmm : G * (i / G) = G * (n / G) := by rw [he]
    have him : i % G < n % G := by omega
    rw [if_pos him]
    omega
  · have hlt : i / G < n / G := lt_of_le_of_ne h1 he
    by_cases hc : i % G < n % G
    · rw [if_pos hc]; omega
    · rw [if_neg hc]; omega

lemma splitDeal_getD (cmds : List α) (k j : Nat)
    (hG : 0 < dealGroupCount cmds.length k) (hj : j < dealGroupCount cmds.length k) :
    (splitDeal cmds k).getD j []
      = List.filterMap (fun t => cmds[j + dealGroupCount cmds.length k * t]?)
          (List.range (cmds.length / dealGroupCount cmds.length k
            + if j < cmds.length % dealGroupCount cmds.length k then 1 else 0)) := by
  rw [splitDeal,
    dealLoop_getD (dealGroupCount cmds.length k) cmds
      (List.replicate (dealGroupCount cmds.length k) []) 0 j (by simp) hG hj]
  have hrep : (List.replicate (dealGroupCount cmds.length k) ([] : List α)).getD j []
      = [] := by
    rw [List.getD_eq_getElem?_getD, List.getElem?_replicate, if_pos hj]
    rfl
  rw [hrep, List.nil_append, dealSpec_eq_filter _ hG cmds 0 j hG]
  have hzero : (fun p => decide ((0 + p) % dealGroupCount cmds.length k = j))
      = (fun p => decide (p % dealGroupCount cmds.length k = j)) := by
    funext p
    rw [Nat.zero_add]
  rw [hzero, filter_mod_range _ j hG hj cmds.length, List.filterMap_map]
  rfl

lemma splitDeal_getD_length (cmds : List α) (k j : Nat)
    (hG : 0 < dealGroupCount cmds.length k) (hj : j < dealGroupCount cmds.length k) :
    ((splitDeal cmds k).getD j []).length
      = cmds.length / dealGroupCount cmds.length k
        + if j < cmds.length % dealGroupCount cmds.length k then 1 else 0 := by
  have hsome : ∀ a ∈ List.range (cmds.length / dealGroupCount cmds.length k
      + if j < cmds.length % dealGroupCount cmds.length k then 1 else 0),
      ((fun t => cmds[j + dealGroupCount cmds.length k * t]?) a).isSome := by
    intro a ha
    have halt := List.mem_range.mp ha
    have hin := deal_idx_lt cmds.length (dealGroupCount cmds.length k) j hG hj a halt
    simp only [List.getElem?_eq_getElem hin, Option.isSome_some]
  rw [splitDeal_getD cmds k j hG hj, filterMap_length_all_some _ _ hsome,
    List.length_range]

lemma splitDeal_position (cmds : List α) (k i : Nat)
    (hG : 0 < dealGroupCount cmds.length k) (hi : i < cmds.length) :
    ((splitDeal cmds k).getD (i % dealGroupCount cmds.length k)
        [])[i / dealGroupCount cmds.length k]?
      = cmds[i]? := by
  have hjm : i % dealGroupCount cmds.length k < dealGroupCount cmds.length k :=
    Nat.mod_lt _ hG
  have hsome : ∀ a ∈ List.range (cmds.length / dealGroupCount cmds.length k
      + if i % dealGroupCount cmds.length k < cmds.length % dealGroupCount cmds.length k
        then 1 else 0),
      ((fun t =>
        cmds[i % dealGroupCount cmds.length k + dealGroupCount cmds.length k * t]?)
          a).isSome := by
    intro a ha
    have halt := List.mem_range.mp ha
    have hin := deal_idx_lt cmds.length (dealGroupCount cmds.length k)
      (i % dealGroupCount cmds.length k) hG hjm a halt
    simp only [List.getElem?_eq_getElem hin, Option.isSome_some]
  rw [splitDeal_getD cmds k (i % dealGroupCount cmds.length k) hG hjm,
    filterMap_getElem_all_some _ _ hsome (i / dealGroupCount cmds.length k)]
  have hcnt := deal_div_lt_cnt i cmds.length (dealGroupCount cmds.length k) hG hi
  rw [List.getElem?_range hcnt]
  simp only [Option.some_bind]
  have hmd : i % dealGroupCount cmds.length k
      + dealGroupCount cmds.length k * (i / dealGroupCount cmds.length k) = i :=
    Nat.mod_add_div i (dealGroupCount cmds.length k)
  rw [hmd]

/-- **C4 (counterexample).** Five commands dealt into a requested four
groups: `splitIntoNFiles` computes `k = ceil(5/4) = 2`, then the dealt
branch of `splitByNumCommands` makes `floor(5/2) + 1 = 3` output groups
— not 4 — and the command at index 3 lands in group `3 mod 3 = 0`,
not group `3 mod 4 = 3`. -/
theorem C4_counterexample :
    splitIntoNFiles ([0, 1, 2, 3, 4] : List Nat) 4 true
      = .ok [[0, 3], [1, 4], [2]]
    ∧ ([[0, 3], [1, 4], [2]] : List (List Nat)).length ≠ 4 := by
  refine ⟨rfl, by decide⟩

/-- **C4 (amended).** Dealt partitioning by a positive group count `m`
of a non-empty command list: `splitIntoNFiles` succeeds and delegates
with `k = ceil(n/m)`; it produces `dealGroupCount n k` groups (a
positive number that is at most `m`, but can be smaller than `m`);
group `j` holds exactly `n/g + 1` commands when `j < n mod g` and `n/g`
otherwise (`g` the group count — so group sizes differ by at most 1);
and the command at index `i` is dealt to group `i mod g` at position
`i / g` within it. -/
theorem C4_deal_by_count (cmds : List α) (m : Nat) (hm : 0 < m)
    (hne : cmds ≠ []) :
    splitIntoNFiles cmds m true
      = .ok (splitDeal cmds ((cmds.length + m - 1) / m))
    ∧ (splitDeal cmds ((cmds.length + m - 1) / m)).length
      = nfilesGroupCount cmds.length m
    ∧ 0 < nfilesGroupCount cmds.length m
    ∧ nfilesGroupCount cmds.length m ≤ m
    ∧ (∀ j, j < nfilesGroupCount cmds.length m →
        ((splitDeal cmds ((cmds.length + m - 1) / m)).getD j []).length
          = cmds.length / nfilesGroupCount cmds.length m
            + if j < cmds.length % nfilesGroupCount cmds.length m then 1 else 0)
    ∧ (∀ i, i < cmds.length →
        ((splitDeal cmds ((cmds.length + m - 1) / m)).getD
            (i % nfilesGroupCount cmds.length m)
            [])[i / nfilesGroupCount cmds.length m]?
          = cmds[i]?) := by
  have hn : 0 < cmds.length := List.length_pos.mpr hne
  have hk : 0 < (cmds.length + m - 1) / m :=
    (Nat.one_le_div_iff hm).mpr (by omega)
  have hG : 0 < dealGroupCount cmds.length ((cmds.length + m - 1) / m) := by
    rw [dealGroupCount, ← ceil_div_eq _ _ hk]
    exact (Nat.one_le_div_iff hk).mpr (by omega)
  have hmk : cmds.length ≤ m * ((cmds.length + m - 1) / m) := by
    have hdm := Nat.div_add_mod (cmds.length + m - 1) m
    have hlt : (cmds.length + m - 1) % m < m := Nat.mod_lt _ hm
    omega
  have hGle : dealGroupCount cmds.length ((cmds.length + m - 1) / m) ≤ m := by
    rw [dealGroupCount, ← ceil_div_eq _ _ hk,
      Nat.div_le_iff_le_mul_add_pred hk]
    have hc : ((cmds.length + m - 1) / m) * m = m * ((cmds.length + m - 1) / m) :=
      Nat.mul_comm _ _
    omega
  refine ⟨?_, ?_, hG, hGle, ?_, ?_⟩
  · rw [splitIntoNFiles, if_neg (by omega), splitByNumCommands,
      if_neg (by omega)]
    rfl
  · rw [nfilesGroupCount, splitDeal, dealLoop_length, List.length_replicate]
  · intro j hj
    rw [nfilesGroupCount] at hj ⊢
    exact splitDeal_getD_length cmds _ j hG hj
  · intro i hi
    rw [nfilesGroupCount]
    exact splitDeal_position cmds _ i hG hi

/-- Witness for `C4_deal_by_count`: ten commands into four groups
(`k = 3`, so `dealGroupCount 10 3 = 4` groups of sizes `3, 3, 2, 2`). -/
theorem C4_deal_by_count_witness :
    0 < 4 ∧ ([0, 1, 2, 3, 4, 5, 6, 7, 8, 9] : List Nat) ≠ [] ∧
    (splitIntoNFiles ([0, 1, 2, 3, 4, 5, 6, 7, 8, 9] : List Nat) 4 true
      = .ok (splitDeal ([0, 1, 2, 3, 4, 5, 6, 7, 8, 9] : List Nat)
          ((([0, 1, 2, 3, 4, 5, 6, 7, 8, 9] : List Nat).length + 4 - 1) / 4))
    ∧ (splitDeal ([0, 1, 2, 3, 4, 5, 6, 7, 8, 9] : List Nat)
        ((([0, 1, 2, 3, 4, 5, 6, 7, 8, 9] : List Nat).length + 4 - 1) / 4)).length
      = nfilesGroupCount ([0, 1, 2, 3, 4, 5, 6, 7, 8, 9] : List Nat).length 4
    ∧ 0 < nfilesGroupCount ([0, 1, 2, 3, 4, 5, 6, 7, 8, 9] : List Nat).length 4
    ∧ nfilesGroupCount ([0, 1, 2, 3, 4, 5, 6, 7, 8, 9] : List Nat).length 4 ≤ 4
    ∧ (∀ j, j < nfilesGroupCount ([0, 1, 2, 3, 4, 5, 6, 7, 8, 9] : List Nat).length 4 →
        ((splitDeal ([0, 1, 2, 3, 4, 5, 6, 7, 8, 9] : List Nat)
            ((([0, 1, 2, 3, 4, 5, 6, 7, 8, 9] : List Nat).length + 4 - 1) / 4)).getD
              j []).length
          = ([0, 1, 2, 3, 4, 5, 6, 7, 8, 9] : List Nat).length
              / nfilesGroupCount ([0, 1, 2, 3, 4, 5, 6, 7, 8, 9] : List Nat).length 4
            + if j < ([0, 1, 2, 3, 4, 5, 6, 7, 8, 9] : List Nat).length
                % nfilesGroupCount ([0, 1, 2, 3, 4, 5, 6, 7, 8, 9] : List Nat).length 4
              then 1 else 0)
    ∧ (∀ i, i < ([0, 1, 2, 3, 4, 5, 6, 7, 8, 9] : List Nat).length →
        ((splitDeal ([0, 1, 2, 3, 4, 5, 6, 7, 8, 9] : List Nat)
            ((([0, 1, 2, 3, 4, 5, 6, 7, 8, 9] : List Nat).length + 4 - 1) / 4)).getD
            (i % nfilesGroupCount ([0, 1, 2, 3, 4, 5, 6, 7, 8, 9] : List Nat).length 4)
            [])[i / nfilesGroupCount ([0, 1, 2, 3, 4, 5, 6, 7, 8, 9] : List Nat).length 4]?
          = ([0, 1, 2, 3, 4, 5, 6, 7, 8, 9] : List Nat)[i]?)) :=
  ⟨by decide, by decide,
    C4_deal_by_count [0, 1, 2, 3, 4, 5, 6, 7, 8, 9] 4 (by decide) (by decide)⟩

/-- **C8 (counterexample).** A negative `--split` with `--nfiles` left
at 0 reaches neither of the two argument-validation `raise`s nor any
partitioning branch: the program performs no partitioning and exits
without error, contradicting the claim that a non-positive group size
fails with an error surfaced to the caller. -/
theorem C8_counterexample :
    mainDispatch (-1) 0 (["cmd_a", "cmd_b"] : List String) false = .ok none := rfl

/-- **C8 (amended).** The command-line dispatch of `splitcmdslist.py`:
an error is raised only when both `--split` and `--nfiles` are 0 (or
both positive); when one of them is negative and neither is positive,
the program silently does nothing (no error, no group files); an empty
command list with a positive `--split` yields zero groups (and an empty
manifest); an empty command list with a positive `--nfiles` raises
`ZeroDivisionError` (`math.ceil(0/m) = 0` is fed to
`splitByNumCommands` as a zero group size). -/
theorem C8_dispatch (cmds : List α) (split nfiles : Int) (dealFlag : Bool) :
    (mainDispatch 0 0 cmds dealFlag
      = .error "You must specify either --split or --files.")
    ∧ (split ≤ 0 → nfiles ≤ 0 → ¬(split = 0 ∧ nfiles = 0) →
        mainDispatch split nfiles cmds dealFlag = .ok none)
    ∧ (0 < split →
        mainDispatch split 0 ([] : List α) dealFlag = .ok (some []))
    ∧ (0 < nfiles →
        mainDispatch 0 nfiles ([] : List α) dealFlag
          = .error "ZeroDivisionError") := by
  refine ⟨?_, ?_, ?_, ?_⟩
  · rw [mainDispatch, if_pos ⟨rfl, rfl⟩]
  · intro h1 h2 h3
    rw [mainDispatch, if_neg h3, if_neg (by omega), if_neg (by omega),
      if_neg (by omega)]
  · intro h1
    rw [mainDispatch, if_neg (by omega), if_neg (by omega), if_pos h1,
      splitByNumCommands, if_neg (by omega)]
    have hz : ([] : List α).length = 0 := rfl
    cases dealFlag
    · simp [splitContiguous, Except.map]
    · simp [splitDeal, dealGroupCount, dealLoop, Except.map]
  · intro h1
    rw [mainDispatch, if_neg (by omega), if_neg (by omega),
      if_neg (by omega), if_pos h1, splitIntoNFiles, if_neg (by omega),
      splitByNumCommands, if_pos (by simp [Nat.div_eq_of_lt (by omega : nfiles.toNat - 1 < nfiles.toNat)])]
    rfl

/-- Witness for `C8_dispatch`: negative `--split` is a silent no-op;
`--nfiles 5` on an empty list raises; `--split 4` on an empty list
yields zero groups. -/
theorem C8_dispatch_witness :
    ((-3 : Int) ≤ 0 ∧ (0 : Int) ≤ 0 ∧ ¬((-3 : Int) = 0 ∧ (0 : Int) = 0)
      ∧ mainDispatch (-3) 0 (["job"] : List String) true = .ok none)
    ∧ ((0 : Int) < 5
      ∧ mainDispatch 0 5 ([] : List String) false = .error "ZeroDivisionError")
    ∧ ((0 : Int) < 4
      ∧ mainDispatch 4 0 ([] : List String) false = .ok (some [])) :=
  ⟨⟨by decide, by decide, by decide,
    (C8_dispatch ["job"] (-3) 0 true).2.1 (by decide) (by decide) (by decide)⟩,
   ⟨by decide, (C8_dispatch ([] : List String) 0 5 false).2.2.2 (by decide)⟩,
   ⟨by decide, (C8_dispatch ([] : List String) 4 0 false).2.2.1 (by decide)⟩⟩

end SplitCmds




namespace PBPTUtilsM

lemma daysInMonth_le (y m : Nat) : daysInMonth y m ≤ 31 := by
  rw [daysInMonth]
  split
  · split <;> omega
  · split <;> omega

lemma readDigit_digitChar : ∀ k, k < 10 → readDigit (digitChar k) = some k := by
  decide

lemma parse2_pad2 (n : Nat) (h : n < 100) :
    parse2 (digitChar (n / 10)) (digitChar (n % 10)) = some n := by
  rw [parse2, readDigit_digitChar _ (by omega), readDigit_digitChar _ (by omega)]
  simp only [Option.some_bind]
  congr 1
  omega

lemma parse4_pad4 (n : Nat) (h : n < 10000) :
    parse4 (digitChar (n / 1000)) (digitChar (n / 100 % 10))
      (digitChar (n / 10 % 10)) (digitChar (n % 10)) = some n := by
  rw [parse4, readDigit_digitChar _ (by omega), readDigit_digitChar _ (by omega),
    readDigit_digitChar _ (by omega), readDigit_digitChar _ (by omega)]
  simp only [Option.some_bind]
  congr 1
  omega

lemma fromisoformat_isoformat (d : PyDateTime) (hd : d.valid) :
    fromisoformat (isoformat d) = some d := by
  obtain ⟨h1, h2, h3, h4, h5, h6, h7, h8, h9, h10⟩ := hd
  have hdm := daysInMonth_le d.year d.month
  by_cases hus : d.microsecond = 0
  · have hdt : (⟨d.year, d.month, d.day, d.hour, d.minute, d.second, 0⟩ :
        PyDateTime) = d := by rw [← hus]
    rw [isoformat, if_pos hus]
    simp only [pad4, pad2, List.cons_append, List.nil_append, List.append_nil]
    rw [fromisoformat, if_pos (And.intro rfl rfl), parse4_pad4 _ (by omega),
      Option.some_bind, parse2_pad2 _ (by omega), Option.some_bind,
      parse2_pad2 _ (by omega), Option.some_bind]
    simp only [parseTimePart, parse2_pad2 d.hour (by omega),
      parse2_pad2 d.minute (by omega), parse2_pad2 d.second (by omega),
      Option.some_bind, and_self, if_true]
    rw [mkDateTime, hdt]
    exact if_pos (⟨h1, h2, h3, h4, h5, h6, h7, h8, h9, h10⟩ : d.valid)
  · have hdt : (⟨d.year, d.month, d.day, d.hour, d.minute, d.second,
        d.microsecond⟩ : PyDateTime) = d := rfl
    rw [isoformat, if_neg hus]
    simp only [pad4, pad2, pad6, List.cons_append, List.nil_append,
      List.append_nil]
    rw [fromisoformat, if_pos (And.intro rfl rfl), parse4_pad4 _ (by omega),
      Option.some_bind, parse2_pad2 _ (by omega), Option.some_bind,
      parse2_pad2 _ (by omega), Option.some_bind]
    simp only [parseTimePart, parse2_pad2 d.hour (by omega),
      parse2_pad2 d.minute (by omega), parse2_pad2 d.second (by omega),
      readDigit_digitChar (d.microsecond / 100000) (by omega),
      readDigit_digitChar (d.microsecond / 10000 % 10) (by omega),
      readDigit_digitChar (d.microsecond / 1000 % 10) (by omega),
      readDigit_digitChar (d.microsecond / 100 % 10) (by omega),
      readDigit_digitChar (d.microsecond / 10 % 10) (by omega),
      readDigit_digitChar (d.microsecond % 10) (by omega),
      Option.some_bind, and_self, if_true]
    have hval : 100000 * (d.microsecond / 100000)
        + 10000 * (d.microsecond / 10000 % 10) + 1000 * (d.microsecond / 1000 % 10)
        + 100 * (d.microsecond / 100 % 10) + 10 * (d.microsecond / 10 % 10)
        + d.microsecond % 10 = d.microsecond := by omega
    rw [hval, mkDateTime, hdt]
    exact if_pos (⟨h1, h2, h3, h4, h5, h6, h7, h8, h9, h10⟩ : d.valid)

lemma dropWhile_eq_self_of (p : Char → Bool) (cs : List Char)
    (h : ∀ c ∈ cs, p c = false) : cs.dropWhile p = cs := by
  cases cs with
  | nil => rfl
  | cons a l =>
    rw [List.dropWhile_cons, h a (by simp)]
    simp

lemma stripChars_eq_self (cs : List Char) (h : ∀ c ∈ cs, isPySpace c = false) :
    stripChars cs = cs := by
  rw [stripChars, dropWhile_eq_self_of _ _ h,
    dropWhile_eq_self_of _ _ (fun c hc => h c (by simpa using hc)),
    List.reverse_reverse]

lemma splitNewlines_single (cs : List Char) (h : ∀ c ∈ cs, c ≠ '\n') :
    splitNewlines (cs ++ ['\n']) = [cs, []] := by
  induction cs with
  | nil => rfl
  | cons a l ih =>
    have ha : a ≠ '\n' := h a (by simp)
    have hl : ∀ c ∈ l, c ≠ '\n' := fun c hc => h c (by simp [hc])
    show splitNewlines (a :: (l ++ ['\n'])) = [a :: l, []]
    have hstep : splitNewlines (a :: (l ++ ['\n']))
        = match splitNewlines (l ++ ['\n']) with
          | [] => if a = '\n' then [[], []] else [[a]]
          | x :: xs => if a = '\n' then [] :: x :: xs else (a :: x) :: xs := rfl
    rw [hstep, ih hl]
    simp [ha]

lemma strip_read_lock (cs : List Char) (h : ∀ c ∈ cs, isPySpace c = false) :
    stripChars (readNoNewlines (cs ++ ['\n'])) = cs := by
  have hnl : ∀ c ∈ cs, c ≠ '\n' := by
    intro c hc he
    subst he
    simpa [isPySpace] using h _ hc
  rw [readNoNewlines, splitNewlines_single cs hnl]
  simp only [List.map_cons, List.map_nil, List.flatten_cons, List.flatten_nil,
    List.append_nil]
  rw [stripChars_eq_self cs h]
  show stripChars (cs ++ stripChars []) = cs
  rw [show stripChars ([] : List Char) = [] from rfl, List.append_nil,
    stripChars_eq_self cs h]

lemma isoformat_no_space (d : PyDateTime) (hd : d.valid) :
    ∀ c ∈ isoformat d, isPySpace c = false := by
  obtain ⟨h1, h2, h3, h4, h5, h6, h7, h8, h9, h10⟩ := hd
  have hdm := daysInMonth_le d.year d.month
  have hdig : ∀ k, k < 10 → isPySpace (digitChar k) = false := by decide
  intro c hc
  rw [isoformat] at hc
  by_cases hus : d.microsecond = 0
  · rw [if_pos hus] at hc
    simp only [pad4, pad2, List.cons_append, List.nil_append, List.append_nil,
      List.mem_cons, List.not_mem_nil, or_false] at hc
    rcases hc with rfl|rfl|rfl|rfl|rfl|rfl|rfl|rfl|rfl|rfl|rfl|rfl|rfl|rfl|rfl|rfl|rfl|rfl|rfl <;>
      first
        | decide
        | exact hdig _ (by omega)
  · rw [if_neg hus] at hc
    simp only [pad4, pad2, pad6, List.cons_append, List.nil_append,
      List.append_nil, List.mem_cons, List.not_mem_nil, or_false] at hc
    rcases hc with rfl|rfl|rfl|rfl|rfl|rfl|rfl|rfl|rfl|rfl|rfl|rfl|rfl|rfl|rfl|rfl|rfl|rfl|rfl|rfl|rfl|rfl|rfl|rfl|rfl|rfl <;>
      first
        | decide
        | exact hdig _ (by omega)

/-- **C7 (counterexample).** A lock file whose content is the
unparseable text `bad`: `clean_file_locks` hits the `ValueError` from
`fromisoformat` and aborts, leaving the file in place — the claim that
an unparseable lock is treated as stale and deleted is false. -/
theorem C7_counterexample :
    cleanFileLocks ⟨2020, 1, 1, 0, 2, 0, 0⟩ 60 [['b', 'a', 'd']]
      = ([['b', 'a', 'd']], true) := rfl

/-- **C7 (amended).** Over a directory of lock files whose contents are
each empty-after-strip or a parseable timestamp, `clean_file_locks`
completes without raising and deletes exactly the files whose
timestamp is strictly older than `timeout` seconds together with the
empty ones, keeping (in scan order) exactly the parseable locks within
the timeout; a lock whose non-empty content cannot be parsed instead
raises `ValueError`, aborting the sweep with that file and all later
ones left in place (`C7_counterexample`). -/
theorem C7_clean_stale (now : PyDateTime) (timeout : Int)
    (files : List (List Char)) (h : ∀ f ∈ files, goodLockContent f) :
    cleanFileLocks now timeout files
      = (files.filter (keepLock now timeout), false) := by
  induction files with
  | nil => rfl
  | cons f rest ih =>
    have hf := h f (by simp)
    have hrest : ∀ x ∈ rest, goodLockContent x :=
      fun x hx => h x (List.mem_cons_of_mem _ hx)
    rw [List.filter_cons]
    by_cases hemp : (stripChars (readNoNewlines f)).isEmpty
    · have hnil : stripChars (readNoNewlines f) = [] :=
        List.isEmpty_iff.mp hemp
      have hkeep : keepLock now timeout f = false := by
        rw [keepLock, hnil]
        rfl
      rw [hkeep]
      show cleanFileLocks now timeout (f :: rest)
        = (List.filter (keepLock now timeout) rest, false)
      rw [cleanFileLocks, if_pos hemp]
      exact ih hrest
    · cases hiso : fromisoformat (stripChars (readNoNewlines f)) with
      | none =>
        exfalso
        rcases hf with hf | hf
        · rw [hf] at hemp
          exact hemp rfl
        · rw [hiso] at hf
          exact Bool.noConfusion hf
      | some dd =>
        by_cases hstale : staleLock now dd timeout
        · have hkeep : keepLock now timeout f = false := by
            rw [keepLock, hiso]
            show (!staleLock now dd timeout) = false
            rw [hstale]
            rfl
          rw [hkeep, if_neg Bool.false_ne_true, cleanFileLocks, if_neg hemp,
            hiso]
          show (if staleLock now dd timeout = true then
              cleanFileLocks now timeout rest
            else (f :: (cleanFileLocks now timeout rest).1,
              (cleanFileLocks now timeout rest).2))
            = (List.filter (keepLock now timeout) rest, false)
          rw [if_pos hstale, ih hrest]
        · have hstale2 : staleLock now dd timeout = false := by
            rcases hb : staleLock now dd timeout
            · rfl
            · exact absurd hb hstale
          have hkeep : keepLock now timeout f = true := by
            rw [keepLock, hiso]
            show (!staleLock now dd timeout) = true
            rw [hstale2]
            rfl
          rw [hkeep, if_pos rfl, cleanFileLocks, if_neg hemp, hiso]
          show (if staleLock now dd timeout = true then
              cleanFileLocks now timeout rest
            else (f :: (cleanFileLocks now timeout rest).1,
              (cleanFileLocks now timeout rest).2))
            = (f :: List.filter (keepLock now timeout) rest, false)
          rw [if_neg (by simp [hstale2]), ih hrest]

/-- Witness for `C7_clean_stale`: at time 00:02:00, with `timeout=60`,
a lock created at 00:00:00 (120 s old) is deleted, a lock created at
00:01:50 (10 s old) is kept, and an empty lock file is deleted; no
error is raised. -/
theorem C7_clean_stale_witness :
    (∀ f ∈ [lockFileContent ⟨2020, 1, 1, 0, 0, 0, 0⟩,
            lockFileContent ⟨2020, 1, 1, 0, 1, 50, 0⟩, ['\n']],
      goodLockContent f)
    ∧ cleanFileLocks ⟨2020, 1, 1, 0, 2, 0, 0⟩ 60
        [lockFileContent ⟨2020, 1, 1, 0, 0, 0, 0⟩,
         lockFileContent ⟨2020, 1, 1, 0, 1, 50, 0⟩, ['\n']]
      = ([lockFileContent ⟨2020, 1, 1, 0, 0, 0, 0⟩,
          lockFileContent ⟨2020, 1, 1, 0, 1, 50, 0⟩,
          ['\n']].filter (keepLock ⟨2020, 1, 1, 0, 2, 0, 0⟩ 60), false)
    ∧ ([lockFileContent ⟨2020, 1, 1, 0, 0, 0, 0⟩,
        lockFileContent ⟨2020, 1, 1, 0, 1, 50, 0⟩,
        ['\n']].filter (keepLock ⟨2020, 1, 1, 0, 2, 0, 0⟩ 60)
      = [lockFileContent ⟨2020, 1, 1, 0, 1, 50, 0⟩]) :=
  ⟨by decide,
   C7_clean_stale ⟨2020, 1, 1, 0, 2, 0, 0⟩ 60
     [lockFileContent ⟨2020, 1, 1, 0, 0, 0, 0⟩,
      lockFileContent ⟨2020, 1, 1, 0, 1, 50, 0⟩, ['\n']] (by decide),
   by decide⟩

/-- **C10.** Round-trip between `get_file_lock` and `clean_file_locks`:
the lock-file content written by `get_file_lock` (the ISO timestamp
plus a newline) is read back by `readTextFileNoNewLines`/`strip` and
parsed by `fromisoformat` to exactly the written datetime; hence a
fresh lock whose age is within the timeout is neither deleted nor makes
`clean_file_locks` raise. -/
theorem C10_lock_roundtrip (d now : PyDateTime) (timeout : Int) (hd : d.valid)
    (hage : epochMicros now - epochMicros d ≤ timeout * 1000000) :
    fromisoformat (stripChars (readNoNewlines (lockFileContent d))) = some d
    ∧ cleanFileLocks now timeout [lockFileContent d]
      = ([lockFileContent d], false) := by
  have hrt : stripChars (readNoNewlines (lockFileContent d)) = isoformat d :=
    strip_read_lock (isoformat d) (isoformat_no_space d hd)
  have hparse : fromisoformat (stripChars (readNoNewlines (lockFileContent d)))
      = some d := by
    rw [hrt]
    exact fromisoformat_isoformat d hd
  refine ⟨hparse, ?_⟩
  have hemp : (stripChars (readNoNewlines (lockFileContent d))).isEmpty = false := by
    rw [hrt, isoformat]
    simp [pad4]
  have hstale : staleLock now d timeout = false := by
    rw [staleLock]
    simp only [decide_eq_false_iff_not]
    omega
  rw [cleanFileLocks, if_neg (by simp [hemp]), hparse]
  show (if staleLock now d timeout = true then cleanFileLocks now timeout []
    else (lockFileContent d :: (cleanFileLocks now timeout []).1,
      (cleanFileLocks now timeout []).2)) = ([lockFileContent d], false)
  rw [if_neg (by simp [hstale])]
  rfl

/-- Witness for `C10_lock_roundtrip`: a lock written at
15:09:26.535897 checked 10 s later with `timeout=60`. -/
theorem C10_lock_roundtrip_witness :
    (⟨2021, 3, 14, 15, 9, 26, 535897⟩ : PyDateTime).valid
    ∧ epochMicros ⟨2021, 3, 14, 15, 9, 36, 0⟩
        - epochMicros ⟨2021, 3, 14, 15, 9, 26, 535897⟩ ≤ 60 * 1000000
    ∧ (fromisoformat (stripChars (readNoNewlines
          (lockFileContent ⟨2021, 3, 14, 15, 9, 26, 535897⟩)))
        = some ⟨2021, 3, 14, 15, 9, 26, 535897⟩
      ∧ cleanFileLocks ⟨2021, 3, 14, 15, 9, 36, 0⟩ 60
          [lockFileContent ⟨2021, 3, 14, 15, 9, 26, 535897⟩]
        = ([lockFileContent ⟨2021, 3, 14, 15, 9, 26, 535897⟩], false)) :=
  ⟨by decide, by decide,
   C10_lock_roundtrip ⟨2021, 3, 14, 15, 9, 26, 535897⟩ ⟨2021, 3, 14, 15, 9, 36, 0⟩
     60 (by decide) (by decide)⟩

end PBPTUtilsM
